import Mathlib

/-!
Verification of the PyKids Robots game server (src/robots/server.py).

The server keeps its world and registry in Python dictionaries, which preserve
insertion order.  We embed those dictionaries as association lists of type
List (String × α) kept in insertion order, with Python dict operations modelled
by the functions aget (lookup), aset (item assignment) and radjust (in-place
value update).  Machine integers of the source are unbounded Python ints, so
they are embedded as Int; wall-clock times (Python floats from time.time) are
embedded as rationals, which preserves the ordering structure the code uses.
Code paths that raise a Python exception (KeyError, AttributeError) are
embedded as functions returning Option, with none marking the raised exception.
-/

namespace Robots

/-- Keys of an insertion-ordered dictionary, in insertion order. -/
def keys {α : Type} (l : List (String × α)) : List String :=
  l.map Prod.fst

/-- Python dict lookup d.get(k): the value stored under the first (unique)
binding of the key, if any. -/
def aget {α : Type} (k : String) : List (String × α) → Option α
  | [] => none
  | p :: t => if p.1 = k then some p.2 else aget k t

/-- Python dict item assignment d[k] = v: replace the value in place when the
key is already bound, otherwise append the new binding at the end. -/
def aset {α : Type} (k : String) (v : α) (l : List (String × α)) : List (String × α) :=
  if (aget k l).isSome then
    l.map (fun p => if p.1 = k then (k, v) else p)
  else
    l ++ [(k, v)]

/-- In-place update of the value stored under a key, leaving every other
binding untouched (models mutating one stored Python dict value). -/
def radjust {α : Type} (k : String) (f : α → α) (l : List (String × α)) : List (String × α) :=
  l.map (fun p => if p.1 = k then (p.1, f p.2) else p)

/-- A point of the arena, from the coordinate dictionaries of server.py. -/
structure Point where
  x : Int
  y : Int
  deriving DecidableEq

/-- One robot record, with the exact field set built by generate_world. -/
structure Robot where
  move_from : Point
  move_to : Point
  damage : Int
  target : Option String
  hp : Int
  deriving DecidableEq

/-- One pending action as stored in Server.actions by _on_action: a target
field, and an optional move_to that _on_action currently never stores
(the movement TODO of the source). -/
structure Action where
  move_to : Option Point
  target : Option String
  deriving DecidableEq

/-- The arena-dimension record of generate_world. -/
structure Arena where
  width : Int
  height : Int
  deriving DecidableEq

/-- The world dictionary of generate_world: arena, live robots, wrecks. -/
structure World where
  arena : Arena
  robots : List (String × Robot)
  wrecks : List (String × Robot)
  deriving DecidableEq

/-- The module-level starts list of server.py: all possible starting positions
on the edges of the map, in the exact construction order of the two Python
range loops. -/
def starts : List Point :=
  ((List.range' 50 30 50).map
      (fun x => [Point.mk (Int.ofNat x + 25) 25, Point.mk (Int.ofNat x + 25) 875])).flatten
    ++ ((List.range' 50 16 50).map
      (fun y => [Point.mk 25 (Int.ofNat y + 25), Point.mk 1575 (Int.ofNat y + 25)])).flatten

/-- The robot record generate_world builds for one drawn starting point. -/
def mkRobot (pt : Point) : Robot :=
  { move_from := pt, move_to := pt, damage := 10, target := none, hp := 100 }

/-- The robot-building loop of generate_world: each player in turn pops one
position from the end of the drawn-positions list.  An empty positions list
would be a Python IndexError; it cannot happen because random.sample draws
exactly one position per player. -/
def genRobots : List String → List Point → List (String × Robot)
  | [], _ => []
  | player :: rest, positions =>
    match positions.getLast? with
    | none => []
    | some pt => (player, mkRobot pt) :: genRobots rest positions.dropLast

/-- generate_world of server.py.  The call random.sample(starts, len(players))
is the only source of randomness; it is passed in as the positions argument,
constrained in the theorems exactly as random.sample guarantees (distinct
positions drawn from starts, one per player). -/
def generate_world (players : List String) (positions : List Point) : World :=
  { arena := { width := 1600, height := 900 },
    robots := genRobots players positions,
    wrecks := [] }

/-- First statement of the update_world loop body: commit this robot's
move_from := move_to. -/
def commitMove (k : String) (m : List (String × Robot)) : List (String × Robot) :=
  radjust k (fun x => { x with move_from := x.move_to }) m

/-- Second statement of the update_world loop body: when the stored target of
the robot being processed names a current robots key, subtract the damage
from that target's hp. -/
def applyDmg (r : Robot) (m : List (String × Robot)) : List (String × Robot) :=
  match r.target with
  | none => m
  | some t =>
    if (aget t m).isSome then
      radjust t (fun x => { x with hp := x.hp - r.damage }) m
    else m

/-- Third statement of the update_world loop body: clear this robot's
target. -/
def clearTarget (k : String) (m : List (String × Robot)) : List (String × Robot) :=
  radjust k (fun x => { x with target := none }) m

/-- The body of the first loop of update_world for one robot key, in source
statement order (the robot record r is read before any of the three
mutations, matching the Python dict object whose target and damage fields
are unchanged until the final clearing). -/
def step1One (m : List (String × Robot)) (k : String) : List (String × Robot) :=
  match aget k m with
  | none => m
  | some r => clearTarget k (applyDmg r (commitMove k m))

/-- The first loop of update_world: iterate the robot dictionary in insertion
order (its key set never changes during this loop) and process every robot. -/
def step1 (m : List (String × Robot)) : List (String × Robot) :=
  (keys m).foldl step1One m

/-- The second loop of update_world: every robot whose hp dropped to 0 or
below is popped from robots and stored into wrecks under its key. -/
def step2 (w : World) : World :=
  { w with
    robots := w.robots.filter (fun p => !decide (p.2.hp ≤ 0)),
    wrecks := (w.robots.filter (fun p => decide (p.2.hp ≤ 0))).foldl
      (fun acc p => aset p.1 p.2 acc) w.wrecks }

/-- The third loop of update_world: absorb the pending actions.  For each
pending (name, action) the source evaluates world['robots'][name]; when that
key was pruned this very turn the expression raises KeyError, embedded here
as none. -/
def absorb : List (String × Action) → World → Option World
  | [], w => some w
  | (name, a) :: rest, w =>
    match aget name w.robots with
    | none => none
    | some r =>
      absorb rest
        { w with robots :=
            (aset name { r with move_to := a.move_to.getD r.move_from, target := a.target }
              w.robots) }

/-- update_world of server.py: commit moves and damage, prune dead robots to
wrecks, then absorb the pending actions for the next turn. -/
def update_world (w : World) (actions : List (String × Action)) : Option World :=
  absorb actions (step2 { w with robots := step1 w.robots })

/-- Decoded JSON values as produced by the json codec of the transport. -/
inductive Json where
  | null
  | bool (b : Bool)
  | num (n : Int)
  | str (s : String)
  | arr (elems : List Json)
  | obj (fields : List (String × Json))

mutual

/-- Python repr of a decoded JSON value, as used by the builtin str on
non-string values (string escaping simplified to bare single quotes). -/
def pyRepr : Json → String
  | Json.null => "None"
  | Json.bool true => "True"
  | Json.bool false => "False"
  | Json.num n => toString n
  | Json.str s => "'" ++ s ++ "'"
  | Json.arr xs => "[" ++ pyReprArr xs ++ "]"
  | Json.obj kvs => "\x7b" ++ pyReprObj kvs ++ "\x7d"

/-- Comma-joined reprs of the elements of a JSON array. -/
def pyReprArr : List Json → String
  | [] => ""
  | [x] => pyRepr x
  | x :: xs => pyRepr x ++ ", " ++ pyReprArr xs

/-- Comma-joined reprs of the fields of a JSON object. -/
def pyReprObj : List (String × Json) → String
  | [] => ""
  | [(k, v)] => "'" ++ k ++ "': " ++ pyRepr v
  | (k, v) :: kvs => "'" ++ k ++ "': " ++ pyRepr v ++ ", " ++ pyReprObj kvs

end

/-- Python builtin str applied to a decoded JSON value: strings unchanged,
everything else via repr (str(None) = the four letters of None). -/
def pyStr : Json → String
  | Json.str s => s
  | v => pyRepr v

/-- Python string slicing s[:32] used on the nick. -/
def truncate32 (s : String) : String :=
  String.mk (s.data.take 32)

/-- The phases of the server state machine. -/
inductive Phase where
  | registration
  | game
  | results
  deriving DecidableEq

/-- One stored player record, exactly the two-key dictionary _on_hello
stores. -/
structure PlayerRecord where
  nick : String
  will : String
  deriving DecidableEq

/-- The mutable per-cycle server state.  The world field is none before
_begin_game has ever run: in the source the world attribute simply does not
exist yet, and reading it raises AttributeError, embedded as none-world.
The turn and actions fields are likewise first assigned by _begin_game;
every code path of the embedding reads them only after checking world. -/
structure ServerSt where
  phase : Phase
  since : Rat
  turn : Int
  players : List (String × PlayerRecord)
  actions : List (String × Action)
  world : Option World
  deriving DecidableEq

/-- The active_players property: registry entries whose will is play. -/
def active_players (players : List (String × PlayerRecord)) : List (String × PlayerRecord) :=
  players.filter (fun p => decide (p.2.will = "play"))

/-- Python dict lookup on a stored player record.  The record has exactly the
keys nick and will, so any other key (notably the want key that the capacity
check of _on_hello reads) yields None. -/
def recGet (r : PlayerRecord) (k : String) : Option String :=
  if k = "nick" then some r.nick
  else if k = "will" then some r.will
  else none

/-- Decoded hello message fields: want and nick may be absent or hold any
JSON value. -/
structure HelloMsg where
  want : Option Json
  nick : Option Json

/-- _on_hello of server.py (the roster broadcast is I/O and carries no state).
The three successive rewrites of message['want'] appear as want0, want1,
want2; the capacity check reads the want key of the stored active record via
recGet, exactly as the source does. -/
def on_hello (sender : String) (m : HelloMsg) (s : ServerSt) : ServerSt :=
  let want0 : String :=
    match m.want with
    | some (Json.str w) => if w = "play" ∨ w = "spectate" then w else "play"
    | _ => "play"
  let want1 : String :=
    if want0 = "play" ∧ s.phase ≠ Phase.registration then "spectate" else want0
  let want2 : String :=
    if s.phase = Phase.registration then
      if (match aget sender (active_players s.players) with
          | none => none
          | some r => recGet r "want") ≠ some "play" then
        if starts.length ≤ (active_players s.players).length then "spectate" else want1
      else want1
    else want1
  { s with players :=
      (aset sender { nick := truncate32 (pyStr (m.nick.getD Json.null)), will := want2 }
        s.players) }

/-- Decoded action message fields: the turn field as an integer when present
(an absent or non-integer turn field never equals the integer current turn,
so it is embedded as none), and the raw target field. -/
structure ActionMsg where
  turn : Option Int
  target : Option Json

/-- _on_action of server.py.  Reading self.world before the first game has
begun raises AttributeError (none).  Otherwise: senders without a robot are
ignored, actions for a different turn are ignored, the target is kept only
when it is a string naming a different robot-owning identity, and the action
is stored under the sender, overwriting any earlier one. -/
def on_action (sender : String) (m : ActionMsg) (s : ServerSt) : Option ServerSt :=
  match s.world with
  | none => none
  | some w =>
    if aget sender w.robots = none then some s
    else if m.turn ≠ some s.turn then some s
    else
      let target : Option String :=
        match m.target with
        | some (Json.str t) =>
          if t = sender then none
          else if (aget t w.robots).isSome then some t else none
        | _ => none
      some { s with actions := aset sender { move_to := none, target := target } s.actions }

/-- _begin_results of server.py (the results broadcast elided). -/
def begin_results (now : Rat) (s : ServerSt) : ServerSt :=
  { s with phase := Phase.results, since := now }

/-- _tick_game of server.py, with the current wall-clock time passed in.
A missing world or a KeyError inside update_world propagates as none. -/
def tick_game (now : Rat) (s : ServerSt) : Option ServerSt :=
  if now < s.since + 1 then some s
  else
    match s.world with
    | none => none
    | some w =>
      match update_world w s.actions with
      | none => none
      | some w2 =>
        if w2.robots.length ≤ 1 then
          some (begin_results now { s with world := some w2, actions := [] })
        else
          some { s with world := some w2, actions := [], turn := s.turn + 1, since := now }

/-- _begin_game of server.py: enter the game phase, reset the turn clock and
pending actions, generate a fresh world from the active players (positions is
the random.sample draw), then immediately run the first game tick. -/
def begin_game (now : Rat) (positions : List Point) (s : ServerSt) : Option ServerSt :=
  tick_game now
    { s with phase := Phase.game, since := 0, turn := 0, actions := []
           , world := some (generate_world (keys (active_players s.players)) positions) }

/-- _tick_registration of server.py: start the game only after 10 seconds in
the lobby and only once at least 2 players are active; otherwise wait. -/
def tick_registration (now : Rat) (positions : List Point) (s : ServerSt) : Option ServerSt :=
  if s.since + 10 ≤ now then
    if 2 ≤ (active_players s.players).length then begin_game now positions s
    else some s
  else some s

/-! Dictionary lemmas. -/

theorem mem_keys_of_aget {α : Type} {k : String} {v : α} {l : List (String × α)}
    (h : aget k l = some v) : k ∈ keys l := by
  induction l with
  | nil => simp [aget] at h
  | cons p t ih =>
    by_cases hp : p.1 = k
    · simp [keys, hp]
    · simp only [aget, hp, if_false] at h
      simp [keys] at ih ⊢
      exact Or.inr (ih h)

theorem aget_isSome_of_mem_keys {α : Type} {k : String} {l : List (String × α)}
    (h : k ∈ keys l) : ∃ v, aget k l = some v := by
  induction l with
  | nil => simp [keys] at h
  | cons p t ih =>
    by_cases hp : p.1 = k
    · exact ⟨p.2, by simp [aget, hp]⟩
    · simp [keys, Ne.symm hp] at h
      rcases ih (by simpa [keys] using h) with ⟨v, hv⟩
      exact ⟨v, by simp [aget, hp, hv]⟩

theorem aget_nil {α : Type} (k : String) : aget k ([] : List (String × α)) = none := rfl

theorem aget_cons {α : Type} (k a : String) (b : α) (t : List (String × α)) :
    aget k ((a, b) :: t) = if a = k then some b else aget k t := rfl

theorem mem_of_aget {α : Type} {k : String} {v : α} {l : List (String × α)}
    (h : aget k l = some v) : (k, v) ∈ l := by
  induction l with
  | nil => simp [aget] at h
  | cons p t ih =>
    obtain ⟨a, b⟩ := p
    rw [aget_cons] at h
    by_cases hak : a = k
    · rw [if_pos hak] at h
      injection h with h
      subst hak
      subst h
      exact List.mem_cons_self _ _
    · rw [if_neg hak] at h
      exact List.mem_cons_of_mem _ (ih h)

theorem aget_of_mem_nodup {α : Type} {k : String} {v : α} {l : List (String × α)}
    (hm : (k, v) ∈ l) (hnd : (keys l).Nodup) : aget k l = some v := by
  induction l with
  | nil => simp at hm
  | cons p t ih =>
    simp only [keys, List.map_cons, List.nodup_cons] at hnd
    rcases List.mem_cons.mp hm with h | h
    · simp [aget, ← h]
    · have hk : k ∈ keys t := by
        simpa [keys] using List.mem_map_of_mem Prod.fst h
      have hp : p.1 ≠ k := by
        intro he
        exact hnd.1 (he ▸ hk)
      simp [aget, hp, ih h hnd.2]

theorem keys_radjust {α : Type} (k : String) (f : α → α) (l : List (String × α)) :
    keys (radjust k f l) = keys l := by
  induction l with
  | nil => rfl
  | cons p t ih =>
    by_cases hp : p.1 = k <;> simp_all [keys, radjust]

theorem aget_radjust {α : Type} (k : String) (f : α → α) (l : List (String × α)) (n : String) :
    aget n (radjust k f l) = if n = k then (aget n l).map f else aget n l := by
  induction l with
  | nil => by_cases h : n = k <;> simp [radjust, aget, h]
  | cons p t ih =>
    obtain ⟨a, b⟩ := p
    show aget n ((if a = k then (a, f b) else (a, b)) :: radjust k f t) = _
    by_cases hak : a = k
    · rw [if_pos hak]
      by_cases han : a = n
      · have hnk : n = k := han ▸ hak
        rw [aget_cons, if_pos han, aget_cons, if_pos han, if_pos hnk]
        rfl
      · rw [aget_cons, if_neg han, ih, aget_cons, if_neg han]
    · rw [if_neg hak, aget_cons, aget_cons]
      by_cases han : a = n
      · rw [if_pos han, if_pos han]
        have hnk : ¬ n = k := fun h => hak (han.trans h)
        rw [if_neg hnk]
      · rw [if_neg han, if_neg han, ih]

theorem map_set_id_of_aget_none {α : Type} {k : String} (v : α) {l : List (String × α)}
    (hs : aget k l = none) :
    l.map (fun p => if p.1 = k then (k, v) else p) = l := by
  induction l with
  | nil => rfl
  | cons p t ih =>
    obtain ⟨a, b⟩ := p
    rw [aget_cons] at hs
    by_cases hak : a = k
    · rw [if_pos hak] at hs
      cases hs
    · rw [if_neg hak] at hs
      show (if a = k then (k, v) else (a, b)) :: _ = _
      rw [if_neg hak, ih hs]

theorem aget_aset {α : Type} (k : String) (v : α) (l : List (String × α)) (n : String) :
    aget n (aset k v l) = if n = k then some v else aget n l := by
  unfold aset
  by_cases hs : (aget k l).isSome
  · rw [if_pos hs]
    induction l with
    | nil => simp [aget] at hs
    | cons p t ih =>
      obtain ⟨a, b⟩ := p
      rw [aget_cons] at hs
      show aget n ((if a = k then (k, v) else (a, b)) :: _) = _
      by_cases hak : a = k
      · rw [if_pos hak, aget_cons, aget_cons]
        by_cases hkn : k = n
        · rw [if_pos hkn, if_pos hkn.symm]
        · have hnk : ¬ n = k := fun h => hkn h.symm
          have han : ¬ a = n := fun h => hkn (hak.symm.trans h)
          rw [if_neg hkn, if_neg hnk, if_neg han]
          by_cases hst : (aget k t).isSome
          · rw [ih hst, if_neg hnk]
          · have ht : aget k t = none := Option.not_isSome_iff_eq_none.mp hst
            rw [map_set_id_of_aget_none v ht]
      · rw [if_neg hak] at hs
        rw [if_neg hak, aget_cons, aget_cons]
        by_cases han : a = n
        · have hnk : ¬ n = k := fun h => hak (han.trans h)
          rw [if_pos han, if_pos han, if_neg hnk]
        · rw [if_neg han, if_neg han, ih hs]
  · rw [if_neg hs]
    have hnone : aget k l = none := Option.not_isSome_iff_eq_none.mp hs
    clear hs
    induction l with
    | nil =>
      by_cases h : n = k
      · rw [if_pos h, h]
        show aget k [(k, v)] = some v
        rw [aget_cons, if_pos rfl]
      · rw [if_neg h, aget_nil]
        show aget n [(k, v)] = none
        rw [aget_cons, if_neg (fun hh : k = n => h hh.symm), aget_nil]
    | cons p t ih =>
      obtain ⟨a, b⟩ := p
      rw [aget_cons] at hnone
      by_cases hak : a = k
      · rw [if_pos hak] at hnone
        cases hnone
      · rw [if_neg hak] at hnone
        show aget n ((a, b) :: (t ++ [(k, v)])) = _
        rw [aget_cons, aget_cons]
        by_cases han : a = n
        · have hnk : ¬ n = k := fun h => hak (han.trans h)
          rw [if_pos han, if_pos han, if_neg hnk]
        · rw [if_neg han, if_neg han, ih hnone]

theorem keys_map_set {α : Type} (k : String) (v : α) (l : List (String × α)) :
    keys (l.map (fun p => if p.1 = k then (k, v) else p)) = keys l := by
  induction l with
  | nil => rfl
  | cons p t ih =>
    obtain ⟨a, b⟩ := p
    show keys ((if a = k then (k, v) else (a, b)) :: _) = _
    by_cases hak : a = k
    · rw [if_pos hak]
      show k :: keys (t.map _) = a :: keys t
      rw [ih, hak]
    · rw [if_neg hak]
      show a :: keys (t.map _) = a :: keys t
      rw [ih]

theorem keys_aset_of_isSome {α : Type} {k : String} (v : α) {l : List (String × α)}
    (hs : (aget k l).isSome) : keys (aset k v l) = keys l := by
  unfold aset
  rw [if_pos hs]
  exact keys_map_set k v l

theorem mem_keys_aset_self {α : Type} (k : String) (v : α) (l : List (String × α)) :
    k ∈ keys (aset k v l) := by
  by_cases hs : (aget k l).isSome
  · rw [keys_aset_of_isSome v hs]
    rcases Option.isSome_iff_exists.mp hs with ⟨u, hu⟩
    exact mem_keys_of_aget hu
  · unfold aset
    simp [hs, keys]

theorem mem_keys_aset_of_mem {α : Type} {n : String} (k : String) (v : α)
    {l : List (String × α)} (h : n ∈ keys l) : n ∈ keys (aset k v l) := by
  by_cases hs : (aget k l).isSome
  · rw [keys_aset_of_isSome v hs]; exact h
  · unfold aset
    simp [hs, keys] at h ⊢
    tauto

theorem mem_keys_aset_elim {α : Type} {n k : String} {v : α} {l : List (String × α)}
    (h : n ∈ keys (aset k v l)) : n = k ∨ n ∈ keys l := by
  by_cases hs : (aget k l).isSome
  · rw [keys_aset_of_isSome v hs] at h; exact Or.inr h
  · unfold aset at h
    simp [hs, keys] at h ⊢
    tauto

theorem mem_aset_elim {α : Type} {p : String × α} {k : String} {v : α} {l : List (String × α)}
    (h : p ∈ aset k v l) : p = (k, v) ∨ p ∈ l := by
  unfold aset at h
  by_cases hs : (aget k l).isSome
  · simp only [hs, if_true] at h
    rcases List.mem_map.mp h with ⟨q, hq, he⟩
    by_cases hqk : q.1 = k
    · simp [hqk] at he
      exact Or.inl he.symm
    · simp [hqk] at he
      exact Or.inr (he ▸ hq)
  · simp only [hs, if_false] at h
    rcases List.mem_append.mp h with h | h
    · exact Or.inr h
    · simp at h
      exact Or.inl h

/-! Characterization of the first update_world loop. -/

/-- Damage contribution of the robot stored under k to robot n. -/
def dmgAt (m : List (String × Robot)) (k : String) (n : String) : Int :=
  match aget k m with
  | some q => if q.target = some n then q.damage else 0
  | none => 0

/-- Total damage applied to robot n while the keys ks are processed in order
against the robot dictionary m. -/
def dmgOver (m : List (String × Robot)) (ks : List String) (n : String) : Int :=
  match ks with
  | [] => 0
  | k :: rest => dmgAt m k n + dmgOver m rest n

/-- Net effect of one update_world loop-body execution (processing the robot
stored as r under key k) on the robot stored as x under key n. -/
def step1Effect (k : String) (r : Robot) (n : String) (x : Robot) : Robot :=
  let x1 := if n = k then { x with move_from := x.move_to } else x
  let x2 := if r.target = some n then { x1 with hp := x1.hp - r.damage } else x1
  if n = k then { x2 with target := none } else x2

theorem keys_commitMove (k : String) (m : List (String × Robot)) :
    keys (commitMove k m) = keys m :=
  keys_radjust k _ m

theorem robot_ext {a b : Robot} (h1 : a.move_from = b.move_from)
    (h2 : a.move_to = b.move_to) (h3 : a.damage = b.damage)
    (h4 : a.target = b.target) (h5 : a.hp = b.hp) : a = b := by
  cases a
  cases b
  simp_all

theorem keys_applyDmg (r : Robot) (m : List (String × Robot)) :
    keys (applyDmg r m) = keys m := by
  unfold applyDmg
  split
  · rfl
  · split
    · rw [keys_radjust]
    · rfl

theorem keys_clearTarget (k : String) (m : List (String × Robot)) :
    keys (clearTarget k m) = keys m :=
  keys_radjust k _ m

theorem keys_step1One (m : List (String × Robot)) (k : String) :
    keys (step1One m k) = keys m := by
  unfold step1One
  cases hk : aget k m with
  | none => rfl
  | some r => rw [keys_clearTarget, keys_applyDmg, keys_commitMove]

theorem keys_foldl_step1One (ks : List String) :
    ∀ m : List (String × Robot), keys (ks.foldl step1One m) = keys m := by
  induction ks with
  | nil => intro m; rfl
  | cons k rest ih =>
    intro m
    rw [List.foldl_cons, ih, keys_step1One]

theorem keys_step1 (m : List (String × Robot)) : keys (step1 m) = keys m :=
  keys_foldl_step1One (keys m) m

theorem aget_commitMove {m : List (String × Robot)} {n : String} {x : Robot}
    (k : String) (hn : aget n m = some x) :
    aget n (commitMove k m) = some (if n = k then { x with move_from := x.move_to } else x) := by
  unfold commitMove
  rw [aget_radjust]
  by_cases h : n = k
  · rw [if_pos h, if_pos h, hn]
    rfl
  · rw [if_neg h, if_neg h, hn]

theorem aget_applyDmg {m : List (String × Robot)} {n : String} {x : Robot}
    (r : Robot) (hn : aget n m = some x) :
    aget n (applyDmg r m)
      = some (if r.target = some n then { x with hp := x.hp - r.damage } else x) := by
  unfold applyDmg
  split
  · rename_i ht
    rw [ht, if_neg (fun h : (none : Option String) = some n => Option.noConfusion h)]
    exact hn
  · rename_i t ht
    rw [ht]
    by_cases htn : t = n
    · subst htn
      have hs : (aget t m).isSome := by rw [hn]; rfl
      rw [if_pos hs, aget_radjust, if_pos rfl, hn, if_pos rfl]
      rfl
    · have hne : ¬ ((some t : Option String) = some n) := fun h => htn (Option.some.inj h)
      rw [if_neg hne]
      by_cases hs : (aget t m).isSome
      · rw [if_pos hs, aget_radjust, if_neg (fun h : n = t => htn h.symm)]
        exact hn
      · rw [if_neg hs]
        exact hn

theorem aget_clearTarget {m : List (String × Robot)} {n : String} {x : Robot}
    (k : String) (hn : aget n m = some x) :
    aget n (clearTarget k m) = some (if n = k then { x with target := none } else x) := by
  unfold clearTarget
  rw [aget_radjust]
  by_cases h : n = k
  · rw [if_pos h, if_pos h, hn]
    rfl
  · rw [if_neg h, if_neg h, hn]

theorem aget_step1One {m : List (String × Robot)} {k n : String} {r x : Robot}
    (hk : aget k m = some r) (hn : aget n m = some x) :
    aget n (step1One m k) = some (step1Effect k r n x) := by
  unfold step1One
  rw [hk]
  rw [aget_clearTarget k (aget_applyDmg r (aget_commitMove k hn))]
  rfl

theorem step1Effect_move_to (k : String) (r : Robot) (n : String) (x : Robot) :
    (step1Effect k r n x).move_to = x.move_to := by
  obtain ⟨a1, a2, a3, a4, a5⟩ := x
  unfold step1Effect
  by_cases hnk : n = k
  · subst hnk
    by_cases htn : r.target = some n <;> simp [htn]
  · by_cases htn : r.target = some n <;> simp [hnk, htn]

theorem step1Effect_damage (k : String) (r : Robot) (n : String) (x : Robot) :
    (step1Effect k r n x).damage = x.damage := by
  obtain ⟨a1, a2, a3, a4, a5⟩ := x
  unfold step1Effect
  by_cases hnk : n = k
  · subst hnk
    by_cases htn : r.target = some n <;> simp [htn]
  · by_cases htn : r.target = some n <;> simp [hnk, htn]

theorem step1Effect_move_from (k : String) (r : Robot) (n : String) (x : Robot) :
    (step1Effect k r n x).move_from = if n = k then x.move_to else x.move_from := by
  obtain ⟨a1, a2, a3, a4, a5⟩ := x
  unfold step1Effect
  by_cases hnk : n = k
  · subst hnk
    by_cases htn : r.target = some n <;> simp [htn]
  · by_cases htn : r.target = some n <;> simp [hnk, htn]

theorem step1Effect_target (k : String) (r : Robot) (n : String) (x : Robot) :
    (step1Effect k r n x).target = if n = k then none else x.target := by
  obtain ⟨a1, a2, a3, a4, a5⟩ := x
  unfold step1Effect
  by_cases hnk : n = k
  · subst hnk
    by_cases htn : r.target = some n <;> simp [htn]
  · by_cases htn : r.target = some n <;> simp [hnk, htn]

theorem step1Effect_hp (k : String) (r : Robot) (n : String) (x : Robot) :
    (step1Effect k r n x).hp = if r.target = some n then x.hp - r.damage else x.hp := by
  obtain ⟨a1, a2, a3, a4, a5⟩ := x
  unfold step1Effect
  by_cases hnk : n = k
  · subst hnk
    by_cases htn : r.target = some n <;> simp [htn]
  · by_cases htn : r.target = some n <;> simp [hnk, htn]

theorem dmgAt_congr {m1 m2 : List (String × Robot)} {k : String} (n : String)
    (h : (aget k m2).map (fun q => (q.target, q.damage))
       = (aget k m1).map (fun q => (q.target, q.damage))) :
    dmgAt m2 k n = dmgAt m1 k n := by
  unfold dmgAt
  cases h1 : aget k m1 with
  | none =>
    rw [h1] at h
    cases h2 : aget k m2 with
    | none => rfl
    | some q2 => rw [h2] at h; simp at h
  | some q1 =>
    rw [h1] at h
    cases h2 : aget k m2 with
    | none => rw [h2] at h; simp at h
    | some q2 =>
      rw [h2] at h
      have h := Option.some.inj h
      have ht : q2.target = q1.target := congrArg Prod.fst h
      have hd : q2.damage = q1.damage := congrArg Prod.snd h
      show (if q2.target = some n then q2.damage else 0)
        = if q1.target = some n then q1.damage else 0
      rw [ht, hd]

theorem dmgOver_congr {m1 m2 : List (String × Robot)} {ks : List String} (n : String)
    (h : ∀ j ∈ ks, (aget j m2).map (fun q => (q.target, q.damage))
                 = (aget j m1).map (fun q => (q.target, q.damage))) :
    dmgOver m2 ks n = dmgOver m1 ks n := by
  induction ks with
  | nil => rfl
  | cons k rest ih =>
    unfold dmgOver
    rw [dmgAt_congr n (h k (List.mem_cons_self k rest)),
        ih (fun j hj => h j (List.mem_cons_of_mem _ hj))]

theorem aget_foldl_step1One (ks : List String) :
    ∀ m : List (String × Robot), (keys m).Nodup → ks.Nodup → (∀ j ∈ ks, j ∈ keys m) →
      ∀ n x, aget n m = some x →
        aget n (ks.foldl step1One m) =
          some { x with
                 move_from := if n ∈ ks then x.move_to else x.move_from,
                 target := if n ∈ ks then none else x.target,
                 hp := x.hp - dmgOver m ks n } := by
  induction ks with
  | nil =>
    intro m _ _ _ n x hx
    obtain ⟨a1, a2, a3, a4, a5⟩ := x
    simp [dmgOver, hx]
  | cons k rest ih =>
    intro m hnd hks hsub n x hx
    obtain ⟨r, hk⟩ := aget_isSome_of_mem_keys (hsub k (List.mem_cons_self k rest))
    have hksnd : rest.Nodup := (List.nodup_cons.mp hks).2
    have hknr : k ∉ rest := (List.nodup_cons.mp hks).1
    have hnd2 : (keys (step1One m k)).Nodup := by rw [keys_step1One]; exact hnd
    have hsub2 : ∀ j ∈ rest, j ∈ keys (step1One m k) := by
      rw [keys_step1One]
      exact fun j hj => hsub j (List.mem_cons_of_mem _ hj)
    have hx2 : aget n (step1One m k) = some (step1Effect k r n x) := aget_step1One hk hx
    have hrec := ih (step1One m k) hnd2 hksnd hsub2 n _ hx2
    rw [List.foldl_cons, hrec]
    have hdmg : dmgOver (step1One m k) rest n = dmgOver m rest n := by
      apply dmgOver_congr
      intro j hj
      have hjk : j ≠ k := fun he => hknr (he ▸ hj)
      obtain ⟨xj, hxj⟩ := aget_isSome_of_mem_keys (hsub j (List.mem_cons_of_mem _ hj))
      rw [hxj, aget_step1One hk hxj]
      show some ((step1Effect k r j xj).target, (step1Effect k r j xj).damage) = _
      rw [step1Effect_target, step1Effect_damage, if_neg hjk]
      rfl
    rw [hdmg]
    apply congrArg some
    apply robot_ext
    · show (if n ∈ rest then (step1Effect k r n x).move_to else (step1Effect k r n x).move_from)
        = if n ∈ k :: rest then x.move_to else x.move_from
      rw [step1Effect_move_to, step1Effect_move_from]
      by_cases hnr : n ∈ rest
      · rw [if_pos hnr, if_pos (List.mem_cons_of_mem _ hnr)]
      · rw [if_neg hnr]
        by_cases hnk : n = k
        · rw [if_pos hnk, if_pos (by rw [hnk]; exact List.mem_cons_self _ _)]
        · rw [if_neg hnk, if_neg (by simp [List.mem_cons, hnk, hnr])]
    · exact step1Effect_move_to k r n x
    · exact step1Effect_damage k r n x
    · show (if n ∈ rest then none else (step1Effect k r n x).target)
        = if n ∈ k :: rest then none else x.target
      rw [step1Effect_target]
      by_cases hnr : n ∈ rest
      · rw [if_pos hnr, if_pos (List.mem_cons_of_mem _ hnr)]
      · rw [if_neg hnr]
        by_cases hnk : n = k
        · rw [if_pos hnk, if_pos (by rw [hnk]; exact List.mem_cons_self _ _)]
        · rw [if_neg hnk, if_neg (by simp [List.mem_cons, hnk, hnr])]
    · show (step1Effect k r n x).hp - dmgOver m rest n = x.hp - dmgOver m (k :: rest) n
      rw [step1Effect_hp]
      have hda : dmgAt m k n = if r.target = some n then r.damage else 0 := by
        unfold dmgAt
        rw [hk]
      show _ = x.hp - (dmgAt m k n + dmgOver m rest n)
      rw [hda]
      by_cases htn : r.target = some n
      · rw [if_pos htn, if_pos htn]
        ring
      · rw [if_neg htn, if_neg htn]
        ring

theorem aget_step1 {m : List (String × Robot)} (hnd : (keys m).Nodup)
    {n : String} {x : Robot} (hx : aget n m = some x) :
    aget n (step1 m) =
      some { x with move_from := x.move_to, target := none,
                    hp := x.hp - dmgOver m (keys m) n } := by
  have hmem : n ∈ keys m := mem_keys_of_aget hx
  have h := aget_foldl_step1One (keys m) m hnd hnd (fun _ h => h) n x hx
  unfold step1
  rw [h]
  apply congrArg some
  apply robot_ext
  · show (if n ∈ keys m then x.move_to else x.move_from) = x.move_to
    rw [if_pos hmem]
  · rfl
  · rfl
  · show (if n ∈ keys m then none else x.target) = (none : Option String)
    rw [if_pos hmem]
  · rfl

/-! Lemmas about the pruning and absorption loops. -/

theorem mem_keys_filter {α : Type} {n : String} {p : String × α → Bool} {l : List (String × α)}
    (h : n ∈ keys (l.filter p)) : n ∈ keys l := by
  simp only [keys, List.mem_map] at h ⊢
  rcases h with ⟨q, hq, he⟩
  exact ⟨q, List.mem_of_mem_filter hq, he⟩

theorem entry_unique {α : Type} {n : String} {a b : α} {l : List (String × α)}
    (hnd : (keys l).Nodup) (ha : (n, a) ∈ l) (hb : (n, b) ∈ l) : a = b := by
  have h1 := aget_of_mem_nodup ha hnd
  have h2 := aget_of_mem_nodup hb hnd
  rw [h1] at h2
  exact Option.some.inj h2

theorem nodup_keys_filter {α : Type} {p : String × α → Bool} {l : List (String × α)}
    (hnd : (keys l).Nodup) : (keys (l.filter p)).Nodup := by
  induction l with
  | nil => exact List.nodup_nil
  | cons q t ih =>
    simp only [keys, List.map_cons, List.nodup_cons] at hnd
    by_cases hp : p q
    · rw [List.filter_cons_of_pos hp]
      simp only [keys, List.map_cons, List.nodup_cons]
      refine ⟨fun hmem => hnd.1 (mem_keys_filter hmem), ih hnd.2⟩
    · rw [List.filter_cons_of_neg (by simpa using hp)]
      exact ih hnd.2

theorem mem_keys_foldl_aset_mono {dead : List (String × Robot)} {n : String} :
    ∀ acc : List (String × Robot), n ∈ keys acc →
      n ∈ keys (dead.foldl (fun a p => aset p.1 p.2 a) acc) := by
  induction dead with
  | nil => exact fun acc h => h
  | cons q t ih =>
    intro acc h
    exact ih _ (mem_keys_aset_of_mem q.1 q.2 h)

theorem mem_keys_foldl_aset_of_mem {dead : List (String × Robot)} {q : String × Robot}
    (hq : q ∈ dead) :
    ∀ acc : List (String × Robot), q.1 ∈ keys (dead.foldl (fun a p => aset p.1 p.2 a) acc) := by
  induction dead with
  | nil => cases hq
  | cons d t ih =>
    intro acc
    rcases List.mem_cons.mp hq with h | h
    · subst h
      exact @mem_keys_foldl_aset_mono t q.1 (aset q.1 q.2 acc) (mem_keys_aset_self q.1 q.2 acc)
    · exact ih h _

theorem mem_keys_foldl_aset_elim {dead : List (String × Robot)} {n : String} :
    ∀ acc : List (String × Robot),
      n ∈ keys (dead.foldl (fun a p => aset p.1 p.2 a) acc) →
      n ∈ keys acc ∨ n ∈ keys dead := by
  induction dead with
  | nil => exact fun acc h => Or.inl h
  | cons d t ih =>
    intro acc h
    rcases ih _ h with h2 | h2
    · rcases mem_keys_aset_elim h2 with h3 | h3
      · exact Or.inr (by simp [keys, h3])
      · exact Or.inl h3
    · exact Or.inr (by simp [keys] at h2 ⊢; tauto)

theorem absorb_some_spec {acts : List (String × Action)} :
    ∀ {w w2 : World}, absorb acts w = some w2 →
      keys w2.robots = keys w.robots ∧ w2.wrecks = w.wrecks := by
  induction acts with
  | nil =>
    intro w w2 h
    cases h
    exact ⟨rfl, rfl⟩
  | cons p rest ih =>
    intro w w2 h
    obtain ⟨name, a⟩ := p
    unfold absorb at h
    cases hr : aget name w.robots with
    | none => rw [hr] at h; cases h
    | some r =>
      rw [hr] at h
      have hs : (aget name w.robots).isSome := by rw [hr]; rfl
      rcases ih h with ⟨h1, h2⟩
      constructor
      · rw [h1]
        exact keys_aset_of_isSome _ hs
      · exact h2

/-! Lemmas about generate_world. -/

theorem genRobots_keys : ∀ (pls : List String) (ps : List Point),
    ps.length = pls.length → keys (genRobots pls ps) = pls := by
  intro pls
  induction pls with
  | nil => intro ps h; rfl
  | cons pl rest ih =>
    intro ps hlen
    cases hg : ps.getLast? with
    | none =>
      rw [List.getLast?_eq_none_iff] at hg
      subst hg
      cases hlen
    | some pt =>
      have hlen2 : ps.dropLast.length = rest.length := by
        rw [List.length_dropLast, hlen]
        rfl
      rw [genRobots, hg]
      show pl :: keys (genRobots rest ps.dropLast) = pl :: rest
      rw [ih _ hlen2]

theorem genRobots_mem : ∀ (pls : List String) (ps : List Point),
    ∀ q ∈ genRobots pls ps, q.2.move_from ∈ ps ∧ q.2 = mkRobot q.2.move_from := by
  intro pls
  induction pls with
  | nil => intro ps q hq; cases hq
  | cons pl rest ih =>
    intro ps q hq
    cases hg : ps.getLast? with
    | none =>
      rw [genRobots, hg] at hq
      cases hq
    | some pt =>
      rw [genRobots, hg] at hq
      have hsplit : ps.dropLast ++ [pt] = ps := List.dropLast_append_getLast? pt hg
      rcases List.mem_cons.mp hq with h | h
      · subst h
        constructor
        · show (mkRobot pt).move_from ∈ ps
          rw [← hsplit]
          exact List.mem_append_right _ (by simp [mkRobot])
        · rfl
      · rcases ih _ q h with ⟨h1, h2⟩
        refine ⟨?_, h2⟩
        rw [← hsplit]
        exact List.mem_append_left _ h1

theorem genRobots_points_nodup : ∀ (pls : List String) (ps : List Point),
    ps.length = pls.length → ps.Nodup →
    ((genRobots pls ps).map (fun q => q.2.move_from)).Nodup := by
  intro pls
  induction pls with
  | nil => intro ps _ _; exact List.nodup_nil
  | cons pl rest ih =>
    intro ps hlen hnd
    cases hg : ps.getLast? with
    | none =>
      rw [List.getLast?_eq_none_iff] at hg
      subst hg
      cases hlen
    | some pt =>
      rw [genRobots, hg]
      have hsplit : ps.dropLast ++ [pt] = ps := List.dropLast_append_getLast? pt hg
      have hnd2 : (ps.dropLast ++ [pt]).Nodup := by rw [hsplit]; exact hnd
      have hdl : ps.dropLast.Nodup := hnd2.of_append_left
      have hpt : pt ∉ ps.dropLast := by
        intro hmem
        rcases List.nodup_append.mp hnd2 with ⟨_, _, hdisj⟩
        exact hdisj hmem (by simp)
      have hlen2 : ps.dropLast.length = rest.length := by
        rw [List.length_dropLast, hlen]
        rfl
      simp only [List.map_cons, List.nodup_cons]
      constructor
      · intro hmem
        rcases List.mem_map.mp hmem with ⟨q, hq, he⟩
        have := (genRobots_mem rest ps.dropLast q hq).1
        rw [he] at this
        exact hpt this
      · exact ih _ hlen2 hdl

theorem genRobots_hp_target : ∀ (pls : List String) (ps : List Point),
    ∀ q ∈ genRobots pls ps, q.2.hp = 100 ∧ q.2.target = none := by
  intro pls ps q hq
  have h := (genRobots_mem pls ps q hq).2
  rw [h]
  exact ⟨rfl, rfl⟩

/-! Further helper lemmas. -/

theorem truncate32_length (s : String) : (truncate32 s).length ≤ 32 := by
  show (s.data.take 32).length ≤ 32
  rw [List.length_take]
  exact min_le_left _ _

theorem dmgOver_zero {m : List (String × Robot)} (ks : List String) (n : String)
    (h : ∀ q ∈ m, q.2.target = none) : dmgOver m ks n = 0 := by
  induction ks with
  | nil => rfl
  | cons k rest ih =>
    show dmgAt m k n + dmgOver m rest n = 0
    have hda : dmgAt m k n = 0 := by
      unfold dmgAt
      cases hk : aget k m with
      | none => rfl
      | some q =>
        have hq : q.target = none := h (k, q) (mem_of_aget hk)
        show (if q.target = some n then q.damage else 0) = 0
        rw [hq]
        rfl
    rw [hda, ih]
    rfl

/-- An action record that does not name its own identity as its target. -/
def okAction (p : String × Action) : Prop := p.2.target ≠ some p.1

instance (p : String × Action) : Decidable (okAction p) := by
  unfold okAction
  infer_instance

theorem step2_target_none {w : World} (hnd : (keys w.robots).Nodup) :
    ∀ n x, aget n (step2 { w with robots := step1 w.robots }).robots = some x →
      x.target = none := by
  intro n x hx
  have hx2 : (n, x) ∈ (step1 w.robots).filter (fun p => !decide (p.2.hp ≤ 0)) :=
    mem_of_aget hx
  have hx3 : (n, x) ∈ step1 w.robots := List.mem_of_mem_filter hx2
  have hnd1 : (keys (step1 w.robots)).Nodup := by rw [keys_step1]; exact hnd
  have hx4 : aget n (step1 w.robots) = some x := aget_of_mem_nodup hx3 hnd1
  have hmem : n ∈ keys w.robots := by
    rw [← keys_step1]
    exact mem_keys_of_aget hx4
  obtain ⟨y, hy⟩ := aget_isSome_of_mem_keys hmem
  have h5 := aget_step1 hnd hy
  rw [hx4] at h5
  have h6 := Option.some.inj h5
  rw [h6]

theorem absorb_no_self_target {acts : List (String × Action)} :
    ∀ {w w2 : World}, (keys w.robots).Nodup → (∀ p ∈ acts, okAction p) →
      (∀ n x, aget n w.robots = some x → x.target ≠ some n) →
      absorb acts w = some w2 →
      ∀ n x, aget n w2.robots = some x → x.target ≠ some n := by
  induction acts with
  | nil =>
    intro w w2 _ _ hinv h
    cases h
    exact hinv
  | cons p rest ih =>
    intro w w2 hnd hok hinv h
    obtain ⟨name, a⟩ := p
    unfold absorb at h
    cases hr : aget name w.robots with
    | none => rw [hr] at h; cases h
    | some r =>
      rw [hr] at h
      have hs : (aget name w.robots).isSome := by rw [hr]; rfl
      refine ih ?_ (fun q hq => hok q (List.mem_cons_of_mem _ hq)) ?_ h
      · show (keys (aset name _ w.robots)).Nodup
        rw [keys_aset_of_isSome _ hs]
        exact hnd
      · intro n x hx
        rw [aget_aset] at hx
        by_cases hn : n = name
        · rw [if_pos hn] at hx
          subst hn
          have hv := (Option.some.inj hx).symm
          rw [hv]
          show a.target ≠ some n
          exact hok (n, a) (List.mem_cons_self _ _)
        · rw [if_neg hn] at hx
          exact hinv n x hx

/-! The claims. -/

/-- C1 failing input: robots A (hp 5) and B (hp 100) target each other, and A
has also submitted a pending action for the coming turn.  Inside update_world
A's hp falls to -5, A is pruned to wrecks, and the absorption loop then
evaluates world.robots[A], raising KeyError. -/
def c1World : World :=
  { arena := { width := 1600, height := 900 },
    robots :=
      [("A", { move_from := Point.mk 75 25, move_to := Point.mk 75 25,
               damage := 10, target := some "B", hp := 5 }),
       ("B", { move_from := Point.mk 75 875, move_to := Point.mk 75 875,
               damage := 10, target := some "A", hp := 100 })],
    wrecks := [] }

/-- The pending action of the dying robot A. -/
def c1Actions : List (String × Action) :=
  [("A", { move_to := none, target := some "B" })]

/-- C1: false on the code.  A pending action whose identity lost its robot to
this same turn's pruning makes update_world raise KeyError (none) instead of
silently discarding the action; dropping that action makes the very same call
succeed, isolating the pending action of the pruned robot as the cause. -/
theorem update_world_dead_action_raises :
    update_world c1World c1Actions = none
    ∧ (update_world c1World []).isSome = true :=
  ⟨rfl, rfl⟩

/-- C2 failing input: 92 registered players all with will play (the starts
grid has exactly 92 slots), among them the sender with key 0; the sender
re-sends hello with want play during registration. -/
def c2Players : List (String × PlayerRecord) :=
  (List.range 92).map (fun i => (toString i, { nick := "n", will := "play" }))

/-- The registration-phase server state holding the 92 active players. -/
def c2State : ServerSt :=
  { phase := Phase.registration, since := 0, turn := 0, players := c2Players,
    actions := [], world := none }

/-- C2: false on the code.  A re-registering sender whose stored record has
will = play is still forced to spectate once the active count has reached the
slot capacity: the capacity check reads the want key of the stored record,
which only has nick and will keys, so the already-active exemption never
fires. -/
theorem on_hello_capacity_demotes_active_player :
    aget "0" (on_hello "0" { want := some (Json.str "play"), nick := some (Json.str "n") }
        c2State).players
      = some { nick := "n", will := "spectate" } := by
  decide

/-- C7 failing input: the server state right after the very first
_begin_registration, where the world attribute has never been assigned. -/
def freshRegState : ServerSt :=
  { phase := Phase.registration, since := 0, turn := 0, players := [],
    actions := [], world := none }

/-- A later registration state whose world, left over from a finished game,
does not contain the sender alice. -/
def c7GameState : ServerSt :=
  { phase := Phase.registration, since := 0, turn := 3, players := [],
    actions := [],
    world := some { arena := { width := 1600, height := 900 },
                    robots := [("winner", mkRobot (Point.mk 75 25))],
                    wrecks := [] } }

/-- C7: false on the code in the pre-first-game case.  An action received
before any game has ever begun reads the missing world attribute of the
server and raises AttributeError (none) instead of being silently ignored;
once a world exists, an action from a sender without a robot is indeed a
silent no-op. -/
theorem on_action_before_first_game_raises :
    on_action "alice" { turn := some 0, target := none } freshRegState = none
    ∧ on_action "alice" { turn := some 3, target := none } c7GameState
        = some c7GameState :=
  ⟨rfl, rfl⟩

/-- C9: an action message whose turn field differs from the current turn
leaves the server state, and in particular the pending actions, completely
unchanged: the handler either raises before touching any state (no world yet)
or returns the state untouched. -/
theorem on_action_stale_turn_no_change (sender : String) (m : ActionMsg) (s : ServerSt)
    (h : m.turn ≠ some s.turn) :
    on_action sender m s = none ∨ on_action sender m s = some s := by
  obtain ⟨ph, sin, tur, pls, acts, wo⟩ := s
  cases wo with
  | none => exact Or.inl rfl
  | some w =>
    right
    show (if aget sender w.robots = none then some _
          else if m.turn ≠ some tur then some _
          else some _) = some _
    by_cases ho : aget sender w.robots = none
    · rw [if_pos ho]
    · rw [if_neg ho, if_pos h]

/-- The game state used to exercise the stale-turn rejection. -/
def c9State : ServerSt :=
  { phase := Phase.game, since := 0, turn := 2, players := [],
    actions := [("A", { move_to := none, target := none })],
    world := some { arena := { width := 1600, height := 900 },
                    robots := [("A", mkRobot (Point.mk 75 25))],
                    wrecks := [] } }

/-- C9 witness: a submission for turn 1 while the current turn is 2 changes
nothing. -/
theorem on_action_stale_turn_no_change_witness :
    (some 1 : Option Int) ≠ some (2 : Int)
    ∧ (on_action "A" { turn := some 1, target := some (Json.str "A") } c9State = none
       ∨ on_action "A" { turn := some 1, target := some (Json.str "A") } c9State
           = some c9State) :=
  ⟨by decide, on_action_stale_turn_no_change "A" _ c9State (by decide)⟩

/-- C10: registration never fails on the nick field: whatever JSON value the
nick field holds, or if it is absent, _on_hello stores the Python str of it
truncated to 32 characters, so the stored nick has length at most 32, and an
absent nick stores the literal string None. -/
theorem on_hello_nick_stored (sender : String) (m : HelloMsg) (s : ServerSt) :
    (aget sender (on_hello sender m s).players).map PlayerRecord.nick
      = some (truncate32 (pyStr (m.nick.getD Json.null)))
    ∧ (∀ rec, aget sender (on_hello sender m s).players = some rec →
        rec.nick.length ≤ 32)
    ∧ (m.nick = none →
        (aget sender (on_hello sender m s).players).map PlayerRecord.nick
          = some "None") := by
  have h : (aget sender (on_hello sender m s).players).map PlayerRecord.nick
      = some (truncate32 (pyStr (m.nick.getD Json.null))) := by
    show (aget sender (aset sender _ s.players)).map PlayerRecord.nick = _
    rw [aget_aset, if_pos rfl]
    rfl
  refine ⟨h, ?_, ?_⟩
  · intro rec hrec
    rw [hrec] at h
    have h2 : rec.nick = truncate32 (pyStr (m.nick.getD Json.null)) := by
      have h3 := Option.some.inj h
      simpa using h3
    rw [h2]
    exact truncate32_length _
  · intro hnone
    rw [h, hnone]
    rfl

/-- A fresh registration state for the nick witness. -/
def c10State : ServerSt :=
  { phase := Phase.registration, since := 0, turn := 0, players := [],
    actions := [], world := none }

/-- C10 witness: a hello with no nick field registers with the literal nick
None. -/
theorem on_hello_nick_stored_witness :
    (aget "z" (on_hello "z" { want := none, nick := none } c10State).players).map
        PlayerRecord.nick
      = some "None" :=
  (on_hello_nick_stored "z" { want := none, nick := none } c10State).2.2 rfl

/-- C3: the first update_world loop processes the entire incoming robot set
before any pruning: every robot of the incoming world, whatever its hp
(including robots whose hp falls to 0 or below this same turn), ends the loop
with move_from replaced by its move_to, its target cleared to null, and its
hp reduced by the total damage of all incoming robots targeting it; pruning
to wrecks and absorbing the pending actions operate only on the state this
completed loop produced. -/
theorem update_world_step1_complete (w : World) (acts : List (String × Action))
    (hnd : (keys w.robots).Nodup) :
    (∀ n x, aget n w.robots = some x →
       aget n (step1 w.robots) =
         some { x with move_from := x.move_to, target := none,
                       hp := x.hp - dmgOver w.robots (keys w.robots) n })
    ∧ update_world w acts = absorb acts (step2 { w with robots := step1 w.robots }) :=
  ⟨fun _ _ hx => aget_step1 hnd hx, rfl⟩

/-- A world where robot A dies this turn (B hits it for 7 against hp 3) while
A's own attack must still land on B. -/
def c3World : World :=
  { arena := { width := 1600, height := 900 },
    robots :=
      [("A", { move_from := Point.mk 25 75, move_to := Point.mk 25 125,
               damage := 10, target := some "B", hp := 3 }),
       ("B", { move_from := Point.mk 1575 75, move_to := Point.mk 1575 75,
               damage := 7, target := some "A", hp := 50 })],
    wrecks := [] }

/-- C3 witness: in c3World the dying robot A still damages B, whose hp drops
by A's damage 10 during the loop. -/
theorem update_world_step1_complete_witness :
    (keys c3World.robots).Nodup
    ∧ aget "B" (step1 c3World.robots)
        = some { move_from := Point.mk 1575 75, move_to := Point.mk 1575 75,
                 damage := 7, target := none, hp := 40 } := by
  refine ⟨by decide, ?_⟩
  have h := (update_world_step1_complete c3World [] (by decide)).1 "B"
    { move_from := Point.mk 1575 75, move_to := Point.mk 1575 75,
      damage := 7, target := some "A", hp := 50 } (by decide)
  rw [h]
  rfl

/-- C4: a successful update_world call moves robots to wrecks exactly once
and irreversibly: the robots key set only shrinks, the wrecks key set only
grows, every robot whose hp is at most 0 after the damage loop ends up in
wrecks and out of robots, and disjointness of the robots and wrecks key sets
is preserved. -/
theorem update_world_wrecks_invariant (w : World) (acts : List (String × Action))
    (w2 : World) (hnd : (keys w.robots).Nodup)
    (hdisj : ∀ n, n ∈ keys w.robots → n ∉ keys w.wrecks)
    (hup : update_world w acts = some w2) :
    (∀ n, n ∈ keys w2.robots → n ∈ keys w.robots)
    ∧ (∀ n, n ∈ keys w.wrecks → n ∈ keys w2.wrecks)
    ∧ (∀ n x, aget n (step1 w.robots) = some x → x.hp ≤ 0 →
        n ∈ keys w2.wrecks ∧ n ∉ keys w2.robots)
    ∧ (∀ n, n ∈ keys w2.robots → n ∉ keys w2.wrecks) := by
  have hnd1 : (keys (step1 w.robots)).Nodup := by rw [keys_step1]; exact hnd
  rcases absorb_some_spec hup with ⟨hk2, hw2⟩
  have hrb : (step2 { w with robots := step1 w.robots }).robots
      = (step1 w.robots).filter (fun p => !decide (p.2.hp ≤ 0)) := rfl
  have hwr : (step2 { w with robots := step1 w.robots }).wrecks
      = ((step1 w.robots).filter (fun p => decide (p.2.hp ≤ 0))).foldl
          (fun acc p => aset p.1 p.2 acc) w.wrecks := rfl
  rw [hrb] at hk2
  rw [hwr] at hw2
  have hrobots_sub : ∀ n, n ∈ keys w2.robots → n ∈ keys w.robots := by
    intro n hn
    rw [hk2] at hn
    have h2 := mem_keys_filter hn
    rw [keys_step1] at h2
    exact h2
  refine ⟨hrobots_sub, ?_, ?_, ?_⟩
  · intro n hn
    rw [hw2]
    exact mem_keys_foldl_aset_mono _ hn
  · intro n x hx hhp
    have hmem : (n, x) ∈ step1 w.robots := mem_of_aget hx
    have hdead : (n, x) ∈ (step1 w.robots).filter (fun p => decide (p.2.hp ≤ 0)) :=
      List.mem_filter.mpr ⟨hmem, by simpa using hhp⟩
    constructor
    · rw [hw2]
      exact mem_keys_foldl_aset_of_mem hdead _
    · intro hn
      rw [hk2] at hn
      unfold keys at hn
      rcases List.mem_map.mp hn with ⟨q, hq, hq1⟩
      obtain ⟨q1, q2⟩ := q
      simp only at hq1
      subst hq1
      have he : q2 = x := entry_unique hnd1 (List.mem_of_mem_filter hq) hmem
      have hkeep := (List.mem_filter.mp hq).2
      rw [he] at hkeep
      simp only [Bool.not_eq_eq_eq_not, Bool.not_true, decide_eq_false_iff_not] at hkeep
      exact hkeep hhp
  · intro n hn
    have hnr : n ∈ keys w.robots := hrobots_sub n hn
    intro hwmem
    rw [hw2] at hwmem
    rcases mem_keys_foldl_aset_elim _ hwmem with hold | hdead
    · exact hdisj n hnr hold
    · unfold keys at hdead
      rcases List.mem_map.mp hdead with ⟨q, hq, hq1⟩
      obtain ⟨q1, q2⟩ := q
      simp only at hq1
      subst hq1
      rw [hk2] at hn
      unfold keys at hn
      rcases List.mem_map.mp hn with ⟨p, hp, hp1⟩
      obtain ⟨p1, p2⟩ := p
      simp only at hp1
      subst hp1
      have he : p2 = q2 :=
        entry_unique hnd1 (List.mem_of_mem_filter hp) (List.mem_of_mem_filter hq)
      have hkeep := (List.mem_filter.mp hp).2
      have hdead2 := (List.mem_filter.mp hq).2
      rw [he] at hkeep
      rw [hdead2] at hkeep
      simp at hkeep

/-- A world whose robot A is already dead (hp -2) at the start of the turn
and is pruned by this update. -/
def c4World : World :=
  { arena := { width := 1600, height := 900 },
    robots :=
      [("A", { move_from := Point.mk 75 25, move_to := Point.mk 75 25,
               damage := 10, target := none, hp := -2 }),
       ("B", mkRobot (Point.mk 75 875))],
    wrecks := [] }

/-- The world update_world produces from c4World with no pending actions. -/
def c4Res : World :=
  { arena := { width := 1600, height := 900 },
    robots := [("B", mkRobot (Point.mk 75 875))],
    wrecks :=
      [("A", { move_from := Point.mk 75 25, move_to := Point.mk 75 25,
               damage := 10, target := none, hp := -2 })] }

/-- C4 witness: the dead robot A of c4World ends the turn inside wrecks and
outside robots. -/
theorem update_world_wrecks_invariant_witness :
    (keys c4World.robots).Nodup
    ∧ ("A" ∈ keys c4Res.wrecks ∧ "A" ∉ keys c4Res.robots) := by
  refine ⟨by decide, ?_⟩
  exact (update_world_wrecks_invariant c4World [] c4Res (by decide)
      (fun n _ hn => List.not_mem_nil n hn) rfl).2.2.1 "A"
    { move_from := Point.mk 75 25, move_to := Point.mk 75 25,
      damage := 10, target := none, hp := -2 }
    (by decide) (by decide)

/-- Successful _on_action handling either leaves the state untouched or
stores under the sender an action whose target is not the sender. -/
theorem on_action_cases (sender : String) (m : ActionMsg) (s s2 : ServerSt)
    (h : on_action sender m s = some s2) :
    s2 = s ∨ ∃ (w : World) (t : Option String), s.world = some w
      ∧ s2 = { s with actions := aset sender { move_to := none, target := t } s.actions }
      ∧ t ≠ some sender := by
  obtain ⟨ph, sin, tur, pls, acts, wo⟩ := s
  cases wo with
  | none => cases h
  | some w =>
    change (if aget sender w.robots = none then some _
            else if m.turn ≠ some tur then some _
            else some _) = some s2 at h
    by_cases ho : aget sender w.robots = none
    · rw [if_pos ho] at h
      exact Or.inl (Option.some.inj h).symm
    · rw [if_neg ho] at h
      by_cases ht : m.turn ≠ some tur
      · rw [if_pos ht] at h
        exact Or.inl (Option.some.inj h).symm
      · rw [if_neg ht] at h
        refine Or.inr ⟨w, _, rfl, (Option.some.inj h).symm, ?_⟩
        cases hmt : m.target with
        | none => exact fun hc => Option.noConfusion hc
        | some j =>
          cases j with
          | str t2 =>
            show (if t2 = sender then none
                  else if (aget t2 w.robots).isSome then some t2 else none) ≠ some sender
            by_cases h2 : t2 = sender
            · rw [if_pos h2]
              exact fun hc => Option.noConfusion hc
            · rw [if_neg h2]
              by_cases h3 : (aget t2 w.robots).isSome
              · rw [if_pos h3]
                exact fun hc => h2 (Option.some.inj hc)
              · rw [if_neg h3]
                exact fun hc => Option.noConfusion hc
          | null => exact fun hc => Option.noConfusion hc
          | bool b => exact fun hc => Option.noConfusion hc
          | num v => exact fun hc => Option.noConfusion hc
          | arr a => exact fun hc => Option.noConfusion hc
          | obj o => exact fun hc => Option.noConfusion hc

/-- C8: no robot ever targets itself.  _on_action only ever stores actions
whose target differs from the submitting identity, and a successful
update_world run on such pending actions produces a world where every
robot's target is null or a different identity (the turn loop first clears
every target, pruning keeps that, and absorption writes only non-self
targets). -/
theorem no_self_target :
    (∀ (sender : String) (m : ActionMsg) (s s2 : ServerSt),
        on_action sender m s = some s2 → (∀ p ∈ s.actions, okAction p) →
        ∀ p ∈ s2.actions, okAction p)
    ∧ (∀ (w : World) (acts : List (String × Action)) (w2 : World),
        (keys w.robots).Nodup → (∀ p ∈ acts, okAction p) →
        update_world w acts = some w2 →
        ∀ n x, aget n w2.robots = some x → x.target ≠ some n) := by
  constructor
  · intro sender m s s2 hact hok p hp
    rcases on_action_cases sender m s s2 hact with he | ⟨w, t, hw, he, htne⟩
    · subst he
      exact hok p hp
    · subst he
      rcases mem_aset_elim hp with he2 | he2
      · subst he2
        exact htne
      · exact hok p he2
  · intro w acts w2 hnd hok hup
    have hnd2 : (keys (step2 { w with robots := step1 w.robots }).robots).Nodup := by
      show (keys ((step1 w.robots).filter _)).Nodup
      apply nodup_keys_filter
      rw [keys_step1]
      exact hnd
    exact absorb_no_self_target hnd2 hok
      (fun n x hx heq =>
        Option.noConfusion ((step2_target_none hnd n x hx).symm.trans heq))
      hup

/-- A two-robot world for the self-target witness. -/
def c8World : World :=
  { arena := { width := 1600, height := 900 },
    robots := [("A", mkRobot (Point.mk 75 25)), ("B", mkRobot (Point.mk 75 875))],
    wrecks := [] }

/-- Robot A's pending action targeting B. -/
def c8Acts : List (String × Action) :=
  [("A", { move_to := none, target := some "B" })]

/-- The world update_world produces from c8World and c8Acts. -/
def c8Res : World :=
  { arena := { width := 1600, height := 900 },
    robots :=
      [("A", { move_from := Point.mk 75 25, move_to := Point.mk 75 25,
               damage := 10, target := some "B", hp := 100 }),
       ("B", mkRobot (Point.mk 75 875))],
    wrecks := [] }

/-- C8 witness: after a turn with A targeting B, no robot of the resulting
world targets itself. -/
theorem no_self_target_witness :
    (∀ p ∈ c8Acts, okAction p)
    ∧ (∀ n x, aget n c8Res.robots = some x → x.target ≠ some n) :=
  ⟨by decide, no_self_target.2 c8World c8Acts c8Res (by decide) (by decide) rfl⟩

/-- C6: generate_world creates exactly one robot per player (keyed in player
order), at pairwise distinct points all drawn from the starts grid, each with
move_from = move_to, hp 100, damage 10 and no target, and its wrecks are
empty. -/
theorem generate_world_spec (players : List String) (positions : List Point)
    (hlen : positions.length = players.length) (hnd : positions.Nodup)
    (hmem : ∀ pt ∈ positions, pt ∈ starts) :
    keys (generate_world players positions).robots = players
    ∧ ((generate_world players positions).robots.map (fun q => q.2.move_from)).Nodup
    ∧ (∀ q ∈ (generate_world players positions).robots,
        q.2.move_from = q.2.move_to ∧ q.2.hp = 100 ∧ q.2.damage = 10
          ∧ q.2.target = none ∧ q.2.move_from ∈ starts)
    ∧ (generate_world players positions).wrecks = [] := by
  refine ⟨genRobots_keys players positions hlen,
    genRobots_points_nodup players positions hlen hnd, ?_, rfl⟩
  intro q hq
  rcases genRobots_mem players positions q hq with ⟨h1, h2⟩
  refine ⟨by rw [h2]; rfl, by rw [h2]; rfl, by rw [h2]; rfl, by rw [h2]; rfl, hmem _ h1⟩

/-- Two players for the generate_world witness. -/
def c6Players : List String := ["anna", "bob"]

/-- Two distinct boundary points drawn for them. -/
def c6Pos : List Point := [Point.mk 75 25, Point.mk 75 875]

/-- C6 witness: the generated two-player world has one robot per player at
distinct points and empty wrecks. -/
theorem generate_world_spec_witness :
    c6Pos.length = c6Players.length
    ∧ keys (generate_world c6Players c6Pos).robots = c6Players
    ∧ ((generate_world c6Players c6Pos).robots.map (fun q => q.2.move_from)).Nodup
    ∧ (generate_world c6Players c6Pos).wrecks = [] := by
  have h := generate_world_spec c6Players c6Pos (by decide) (by decide) (by decide)
  exact ⟨by decide, h.1, h.2.1, h.2.2.2⟩

theorem length_keys {α : Type} (l : List (String × α)) : (keys l).length = l.length :=
  List.length_map _ _

theorem length_step1 (m : List (String × Robot)) : (step1 m).length = m.length := by
  have h := congrArg List.length (keys_step1 m)
  rw [keys, keys, List.length_map, List.length_map] at h
  exact h

/-- The first game tick run by _begin_game on a fresh full-health world with
no pending actions keeps the phase it was given and succeeds. -/
theorem tick_game_fresh (now : Rat) (ph : Phase) (sin : Rat) (tur : Int)
    (pls : List (String × PlayerRecord)) (acts0 : List (String × Action))
    (w : World)
    (hnd : (keys w.robots).Nodup)
    (hacts : acts0 = [])
    (htg : ∀ q ∈ w.robots, q.2.hp = 100 ∧ q.2.target = none)
    (hn2 : 2 ≤ w.robots.length) :
    ∃ s2, tick_game now ⟨ph, sin, tur, pls, acts0, some w⟩ = some s2
      ∧ s2.phase = ph := by
  subst hacts
  simp only [tick_game]
  by_cases hnow : now < sin + 1
  · rw [if_pos hnow]
    exact ⟨⟨ph, sin, tur, pls, [], some w⟩, rfl, rfl⟩
  · rw [if_neg hnow]
    have hupd : update_world w [] = some (step2 { w with robots := step1 w.robots }) := rfl
    rw [hupd]
    have hall : ∀ q ∈ step1 w.robots, q.2.hp = 100 := by
      intro q hq
      have hnd1 : (keys (step1 w.robots)).Nodup := by rw [keys_step1]; exact hnd
      have hq1 : aget q.1 (step1 w.robots) = some q.2 := by
        obtain ⟨a, b⟩ := q
        exact aget_of_mem_nodup hq hnd1
      have hmem : q.1 ∈ keys w.robots := by
        rw [← keys_step1]
        exact mem_keys_of_aget hq1
      obtain ⟨y, hy⟩ := aget_isSome_of_mem_keys hmem
      have hchar := aget_step1 hnd hy
      rw [hq1] at hchar
      have he := Option.some.inj hchar
      have hdz : dmgOver w.robots (keys w.robots) q.1 = 0 :=
        dmgOver_zero _ _ (fun p hp => (htg p hp).2)
      have hyhp : y.hp = 100 := (htg (q.1, y) (mem_of_aget hy)).1
      rw [he]
      show y.hp - dmgOver w.robots (keys w.robots) q.1 = 100
      rw [hdz, hyhp]
      rfl
    have hfe : (step1 w.robots).filter (fun p => !decide (p.2.hp ≤ 0)) = step1 w.robots :=
      List.filter_eq_self.mpr (fun q hq => by
        show (!decide (q.2.hp ≤ 0)) = true
        rw [hall q hq]
        rfl)
    have hlen2 : (step2 { w with robots := step1 w.robots }).robots.length
        = w.robots.length := by
      show ((step1 w.robots).filter _).length = _
      rw [hfe, length_step1]
    have hgt : ¬ ((step2 { w with robots := step1 w.robots }).robots.length ≤ 1) := by
      rw [hlen2]
      omega
    refine ⟨⟨ph, now, tur + 1, pls, [],
      some (step2 { w with robots := step1 w.robots })⟩, ?_, rfl⟩
    show (if (step2 { w with robots := step1 w.robots }).robots.length ≤ 1
          then _ else _) = some _
    rw [if_neg hgt]

/-- _begin_game reaches the game phase whenever at least two players are
active and the random draw matches the active-player count. -/
theorem begin_game_game_phase (now : Rat) (positions : List Point) (s : ServerSt)
    (hnd : (keys s.players).Nodup)
    (hlen : positions.length = (active_players s.players).length)
    (h2 : 2 ≤ (active_players s.players).length) :
    ∃ s2, begin_game now positions s = some s2 ∧ s2.phase = Phase.game := by
  have hlenW : positions.length = (keys (active_players s.players)).length := by
    rw [length_keys]
    exact hlen
  have hkeysW : keys (genRobots (keys (active_players s.players)) positions)
      = keys (active_players s.players) :=
    genRobots_keys _ _ hlenW
  have hndW : (keys (genRobots (keys (active_players s.players)) positions)).Nodup := by
    rw [hkeysW]
    exact nodup_keys_filter hnd
  have hn2 : 2 ≤ (genRobots (keys (active_players s.players)) positions).length := by
    have e1 : (genRobots (keys (active_players s.players)) positions).length
        = (keys (genRobots (keys (active_players s.players)) positions)).length :=
      (length_keys _).symm
    rw [e1, hkeysW, length_keys]
    exact h2
  exact tick_game_fresh now Phase.game 0 0 s.players [] _ hndW rfl
    (genRobots_hp_target _ _) hn2

/-- C5: the registration tick enters the game phase exactly when both the
10 second lobby dwell has passed and at least 2 players are active; whenever
either condition fails the tick leaves the state untouched, so neither
elapsed time alone nor player count alone triggers the transition. -/
theorem tick_registration_iff (now : Rat) (positions : List Point) (s : ServerSt)
    (hph : s.phase = Phase.registration)
    (hnd : (keys s.players).Nodup)
    (hlen : positions.length = (active_players s.players).length) :
    ((∃ s2, tick_registration now positions s = some s2 ∧ s2.phase = Phase.game)
       ↔ (s.since + 10 ≤ now ∧ 2 ≤ (active_players s.players).length))
    ∧ (¬ (s.since + 10 ≤ now ∧ 2 ≤ (active_players s.players).length) →
        tick_registration now positions s = some s) := by
  by_cases h1 : s.since + 10 ≤ now
  · by_cases h2 : 2 ≤ (active_players s.players).length
    · have htick : tick_registration now positions s = begin_game now positions s := by
        unfold tick_registration
        rw [if_pos h1, if_pos h2]
      obtain ⟨s2, hs2, hph2⟩ := begin_game_game_phase now positions s hnd hlen h2
      exact ⟨⟨fun _ => ⟨h1, h2⟩, fun _ => ⟨s2, htick.trans hs2, hph2⟩⟩,
        fun hc => absurd ⟨h1, h2⟩ hc⟩
    · have htick : tick_registration now positions s = some s := by
        unfold tick_registration
        rw [if_pos h1, if_neg h2]
      refine ⟨⟨?_, fun hc => absurd hc.2 h2⟩, fun _ => htick⟩
      rintro ⟨s2, hs2, hph2⟩
      rw [htick] at hs2
      rw [← Option.some.inj hs2, hph] at hph2
      cases hph2
  · have htick : tick_registration now positions s = some s := by
      unfold tick_registration
      rw [if_neg h1]
    refine ⟨⟨?_, fun hc => absurd hc.1 h1⟩, fun _ => htick⟩
    rintro ⟨s2, hs2, hph2⟩
    rw [htick] at hs2
    rw [← Option.some.inj hs2, hph] at hph2
    cases hph2

/-- The two-player lobby for the registration-tick witness. -/
def c5State : ServerSt :=
  { phase := Phase.registration, since := 0, turn := 0,
    players := [("anna", { nick := "a", will := "play" }),
                ("bob", { nick := "b", will := "play" })],
    actions := [], world := none }

/-- Two distinct boundary points drawn for the two players. -/
def c5Pos : List Point := [Point.mk 75 25, Point.mk 75 875]

/-- C5 witness: at time 11 with 2 active players and since 0 the registration
tick enters the game phase. -/
theorem tick_registration_iff_witness :
    (c5State.since + 10 ≤ (11 : Rat) ∧ 2 ≤ (active_players c5State.players).length)
    ∧ (∃ s2, tick_registration 11 c5Pos c5State = some s2 ∧ s2.phase = Phase.game) := by
  have hc : c5State.since + 10 ≤ (11 : Rat)
      ∧ 2 ≤ (active_players c5State.players).length := by
    constructor
    · show (0 : Rat) + 10 ≤ 11
      norm_num
    · decide
  exact ⟨hc, (tick_registration_iff 11 c5Pos c5State rfl (by decide) (by decide)).1.mpr hc⟩

end Robots
